import Mathlib

/-!
Verification development for the CHIP estimation engine.

The definitions below are shallow embeddings of the Python pipeline in
`workbench/lib` (pipeline.py, impute.py, aggregate.py) and
`reproduction/chip_repro/pipeline` (clean.py, estimate.py, aggregate.py).
Pandas/numpy missing-data semantics are modelled by the type `V`
(a rational number, NaN, or a signed infinity); exact rational arithmetic
stands in for IEEE doubles, so floating-point rounding is abstracted away
but the NaN/infinity propagation rules of numpy are kept.
-/

namespace Chip

/-- A numpy float cell: NaN (also used for a missing value, as in pandas),
a finite value (modelled as an exact rational), or a signed infinity. -/
inductive V where
  | na : V
  | fin : ℚ → V
  | pinf : V
  | ninf : V
deriving DecidableEq, Repr

/-- IEEE-style division on `V`: NaN propagates; a finite value divided by
zero gives a signed infinity (NaN for 0/0), as numpy does. -/
def V.div : V → V → V
  | na, _ => na
  | _, na => na
  | fin a, fin b =>
      if b = 0 then (if a = 0 then na else if 0 < a then pinf else ninf)
      else fin (a / b)
  | fin _, pinf => fin 0
  | fin _, ninf => fin 0
  | pinf, fin b => if 0 ≤ b then pinf else ninf
  | ninf, fin b => if 0 ≤ b then ninf else pinf
  | pinf, pinf => na
  | pinf, ninf => na
  | ninf, pinf => na
  | ninf, ninf => na

/-- IEEE-style addition on `V`: NaN propagates; opposite infinities give NaN. -/
def V.add : V → V → V
  | na, _ => na
  | _, na => na
  | fin a, fin b => fin (a + b)
  | fin _, pinf => pinf
  | pinf, fin _ => pinf
  | fin _, ninf => ninf
  | ninf, fin _ => ninf
  | pinf, pinf => pinf
  | ninf, ninf => ninf
  | pinf, ninf => na
  | ninf, pinf => na

/-- IEEE-style strict comparison on `V`: any comparison with NaN is false. -/
def V.lt : V → V → Bool
  | na, _ => false
  | _, na => false
  | fin a, fin b => a < b
  | fin _, pinf => true
  | pinf, fin _ => false
  | ninf, fin _ => true
  | fin _, ninf => false
  | pinf, pinf => false
  | ninf, ninf => false
  | ninf, pinf => true
  | pinf, ninf => false

/-- The finite observed values of a list of cells, in order. -/
def obsQ (l : List V) : List ℚ :=
  l.filterMap (fun v => match v with | V.fin q => some q | _ => none)

/-- pandas `Series.mean()` (skipna=True): drop the NaN cells, then sum and
divide by the count.  Infinities are not skipped and propagate into the
mean, exactly as in pandas. -/
def vmean (l : List V) : V :=
  let obs := l.filter (fun v => !(v == V.na))
  if obs.isEmpty then V.na
  else V.div (obs.foldl V.add (V.fin 0)) (V.fin (obs.length : ℚ))

/-- `true` iff the cell is neither +inf nor -inf (it is NaN or finite). -/
def notInf (v : V) : Bool :=
  match v with
  | V.pinf => false
  | V.ninf => false
  | _ => true

/-- `true` iff the cell is a finite nonnegative value. -/
def isNNFin (v : V) : Bool :=
  match v with
  | V.fin q => decide (0 ≤ q)
  | _ => false

-- ---------------------------------------------------------------------------
-- Wage-ratio calculator
-- (workbench/lib/pipeline.py `calculate_wage_ratios`,
--  reproduction clean.py `DataCleaner._calculate_wage_ratios`)
-- ---------------------------------------------------------------------------

/-- One row of the merged labor/wage table: country, year, occupation
category and the observed wage (NaN when missing). -/
structure WageRow where
  country : Nat
  year : Nat
  occupation : Nat
  wage : V
deriving DecidableEq, Repr

/-- The reference-occupation rows matching a given country-year
(`ref_wages` in the source, restricted to one country-year). -/
def ref_rows (rows : List WageRow) (ref c y : Nat) : List WageRow :=
  rows.filter (fun s => s.occupation == ref && s.country == c && s.year == y)

/-- The left merge of every wage row with the reference wage for its
country-year, followed by the per-row division
`wage_ratio = wage / ref_wage`.  A row with no reference match gets a NaN
reference wage (`how="left"`), hence a NaN ratio. -/
def row_ratios (rows : List WageRow) (ref : Nat) : List (Nat × Nat × V) :=
  rows.flatMap (fun r =>
    let refs := ref_rows rows ref r.country r.year
    if refs.isEmpty then [(r.country, r.occupation, V.div r.wage V.na)]
    else refs.map (fun s => (r.country, r.occupation, V.div r.wage s.wage)))

/-- `calculate_wage_ratios`: compute the ratio per country-year first, then
`groupby(["country","occupation"]).mean()` across years.  Returns the cell
of the resulting table at a given (country, occupation). -/
def calculate_wage_ratios (rows : List WageRow) (ref c o : Nat) : V :=
  vmean ((row_ratios rows ref).filterMap
    (fun t => if t.1 == c && t.2.1 == o then some t.2.2 else none))

theorem fin_beq_na (q : ℚ) : (V.fin q == V.na) = false := rfl

theorem pinf_beq_na : (V.pinf == V.na) = false := rfl

theorem na_beq_na : (V.na == V.na) = true := rfl

/-- A 2-period, 2-category wage fixture for one country: category 1 earns
`w1`, `w2` and the reference category 9 earns `r1`, `r2` in the two periods. -/
def fixW (w1 r1 w2 r2 : ℚ) : List WageRow :=
  [⟨0, 1, 1, V.fin w1⟩, ⟨0, 1, 9, V.fin r1⟩, ⟨0, 2, 1, V.fin w2⟩, ⟨0, 2, 9, V.fin r2⟩]

/-- The fixture of `fixW` with a zero reference wage in the second period. -/
def rowsZeroRef : List WageRow :=
  [⟨0, 1, 1, V.fin 2⟩, ⟨0, 1, 9, V.fin 1⟩, ⟨0, 2, 1, V.fin 3⟩, ⟨0, 2, 9, V.fin 0⟩]

/-- A fixture where the reference-category wage is missing (no row) in the
second period, while category 1 is observed in both periods. -/
def rowsMissRef : List WageRow :=
  [⟨0, 1, 1, V.fin 2⟩, ⟨0, 1, 9, V.fin 1⟩, ⟨0, 2, 1, V.fin 3⟩]

theorem div_na_right (v : V) : V.div v V.na = V.na := by
  cases v <;> rfl

/-- Folding IEEE addition over infinities-or-nonnegative values starting
from such an accumulator stays +inf or finite nonnegative. -/
theorem foldl_add_nn (l : List V) (acc : V)
    (hacc : acc = V.pinf ∨ ∃ q, acc = V.fin q ∧ 0 ≤ q)
    (hl : ∀ v ∈ l, v = V.pinf ∨ ∃ q, v = V.fin q ∧ 0 ≤ q) :
    l.foldl V.add acc = V.pinf ∨ ∃ q, l.foldl V.add acc = V.fin q ∧ 0 ≤ q := by
  induction l generalizing acc with
  | nil => exact hacc
  | cons v t ih =>
    have hv := hl v (List.mem_cons_self v t)
    have ht : ∀ x ∈ t, x = V.pinf ∨ ∃ q, x = V.fin q ∧ 0 ≤ q :=
      fun x hx => hl x (List.mem_cons_of_mem v hx)
    refine ih (V.add acc v) ?_ ht
    rcases hacc with h1 | ⟨a, h1, ha⟩ <;> rcases hv with h2 | ⟨b, h2, hb⟩ <;>
      subst h1 <;> subst h2
    · exact Or.inl rfl
    · exact Or.inl rfl
    · exact Or.inl rfl
    · exact Or.inr ⟨a + b, rfl, add_nonneg ha hb⟩

/-- The mean of cells that are each NaN, +inf, or finite nonnegative is
itself NaN, +inf, or finite nonnegative. -/
theorem vmean_nn (l : List V)
    (hl : ∀ v ∈ l, v = V.na ∨ v = V.pinf ∨ ∃ q, v = V.fin q ∧ 0 ≤ q) :
    vmean l = V.na ∨ vmean l = V.pinf ∨ ∃ q, vmean l = V.fin q ∧ 0 ≤ q := by
  unfold vmean
  set obs := l.filter (fun v => !(v == V.na)) with hobs
  by_cases he : obs.isEmpty
  · simp [he]
  · simp only [he, if_false, Bool.false_eq_true]
    have hobs_mem : ∀ v ∈ obs, v = V.pinf ∨ ∃ q, v = V.fin q ∧ 0 ≤ q := by
      intro v hv
      rw [hobs, List.mem_filter] at hv
      rcases hl v hv.1 with h | h | h
      · subst h; simp at hv
      · exact Or.inl h
      · exact Or.inr h
    have hne : obs ≠ [] := by
      simpa [List.isEmpty_iff] using he
    have hlen : 0 < obs.length := List.length_pos.mpr hne
    have hsum := foldl_add_nn obs (V.fin 0) (Or.inr ⟨0, rfl, le_refl 0⟩) hobs_mem
    have hlenq : (0 : ℚ) < (obs.length : ℚ) := by exact_mod_cast hlen
    rcases hsum with h | ⟨q, h, hq⟩
    · rw [h]
      right; left
      simp [V.div, le_of_lt hlenq]
    · rw [h]
      right; right
      refine ⟨q / (obs.length : ℚ), ?_, div_nonneg hq (le_of_lt hlenq)⟩
      simp [V.div, ne_of_gt hlenq]

/-- Under fully observed nonnegative wages, every per-row wage ratio the
calculator produces is NaN, +inf, or finite nonnegative. -/
theorem row_ratios_nn (rows : List WageRow) (ref c o : Nat)
    (h : ∀ r ∈ rows, isNNFin r.wage = true) :
    ∀ x ∈ (row_ratios rows ref).filterMap
      (fun t => if t.1 == c && t.2.1 == o then some t.2.2 else none),
      x = V.na ∨ x = V.pinf ∨ ∃ q, x = V.fin q ∧ 0 ≤ q := by
  intro x hx
  rw [List.mem_filterMap] at hx
  obtain ⟨t, ht, hxt⟩ := hx
  have hx2 : x = t.2.2 := by
    by_cases hc : (t.1 == c && t.2.1 == o) = true
    · rw [if_pos hc] at hxt; exact (Option.some_inj.mp hxt).symm
    · rw [if_neg hc] at hxt; cases hxt
  subst hx2
  rw [row_ratios, List.mem_flatMap] at ht
  obtain ⟨r, hr, htr⟩ := ht
  have hrw := h r hr
  obtain ⟨a, hra, ha⟩ : ∃ a, r.wage = V.fin a ∧ 0 ≤ a := by
    cases hw : r.wage <;> rw [hw] at hrw <;> simp [isNNFin] at hrw
    exact ⟨_, rfl, hrw⟩
  by_cases hemp : (ref_rows rows ref r.country r.year).isEmpty
  · simp only [hemp, if_true] at htr
    simp only [List.mem_singleton] at htr
    subst htr
    simp [div_na_right]
  · simp only [hemp, if_false, Bool.false_eq_true, List.mem_map] at htr
    obtain ⟨s, hs, hts⟩ := htr
    have hsw := h s (List.mem_filter.mp hs).1
    obtain ⟨b, hsb, hb⟩ : ∃ b, s.wage = V.fin b ∧ 0 ≤ b := by
      cases hw : s.wage <;> rw [hw] at hsw <;> simp [isNNFin] at hsw
      exact ⟨_, rfl, hsw⟩
    subst hts
    simp only [hra, hsb, V.div]
    by_cases hbz : b = 0
    · by_cases haz : a = 0
      · simp [hbz, haz]
      · have : 0 < a := lt_of_le_of_ne ha (Ne.symm haz)
        simp [hbz, haz, this]
    · simp only [hbz, if_false]
      exact Or.inr (Or.inr ⟨a / b, rfl, div_nonneg ha hb⟩)

/-- The reference wage a row is merged with: the wage of the (unique)
reference-occupation row of its country-year, NaN when there is none. -/
def refWage (rows : List WageRow) (ref c y : Nat) : V :=
  match (ref_rows rows ref c y).head? with
  | some s => s.wage
  | none => V.na

/-- When each country-year has at most one reference row, the
(country, occupation) group of the merged ratio table consists of exactly
one ratio per row of that group: the row's wage divided by the reference
wage of the row's own country-year. -/
theorem row_ratios_key (rows : List WageRow) (ref c o : Nat)
    (huniq : ∀ r ∈ rows, (ref_rows rows ref r.country r.year).length ≤ 1) :
    (row_ratios rows ref).filterMap
        (fun t => if t.1 == c && t.2.1 == o then some t.2.2 else none)
      = (rows.filter (fun r => r.country == c && r.occupation == o)).map
          (fun r => V.div r.wage (refWage rows ref r.country r.year)) := by
  have key : ∀ rs : List WageRow,
      (∀ r ∈ rs, (ref_rows rows ref r.country r.year).length ≤ 1) →
      (rs.flatMap (fun r =>
        if (ref_rows rows ref r.country r.year).isEmpty then
          [(r.country, r.occupation, V.div r.wage V.na)]
        else (ref_rows rows ref r.country r.year).map
          (fun s => (r.country, r.occupation, V.div r.wage s.wage)))).filterMap
          (fun t => if t.1 == c && t.2.1 == o then some t.2.2 else none)
        = (rs.filter (fun r => r.country == c && r.occupation == o)).map
            (fun r => V.div r.wage (refWage rows ref r.country r.year)) := by
    intro rs
    induction rs with
    | nil => intro _; rfl
    | cons r rs ih =>
      intro hu
      have ihr := ih (fun x hx => hu x (List.mem_cons_of_mem r hx))
      rw [List.flatMap_cons, List.filterMap_append, ihr, List.filter_cons]
      rcases hrr : ref_rows rows ref r.country r.year with _ | ⟨s, rest⟩
      · have hrw : refWage rows ref r.country r.year = V.na := by
          unfold refWage
          rw [hrr]
          rfl
        by_cases hkey : (r.country == c && r.occupation == o) = true
        · have hk : r.country = c ∧ r.occupation = o := by simpa using hkey
          simp [hrr, hkey, hk.1, hk.2]
          rw [← hk.1, hrw]
        · have hk : ¬(r.country = c ∧ r.occupation = o) := by simpa using hkey
          simp [hrr, hkey, hrw, hk]
      · have hrest : rest = [] := by
          have hh := hu r (List.mem_cons_self r rs)
          rw [hrr] at hh
          simpa using hh
        subst hrest
        have hrw : refWage rows ref r.country r.year = s.wage := by
          unfold refWage
          rw [hrr]
          rfl
        by_cases hkey : (r.country == c && r.occupation == o) = true
        · have hk : r.country = c ∧ r.occupation = o := by simpa using hkey
          simp [hrr, hkey, hk.1, hk.2]
          rw [← hk.1, hrw]
        · have hk : ¬(r.country = c ∧ r.occupation = o) := by simpa using hkey
          simp [hrr, hkey, hrw, hk]
  have hrr : row_ratios rows ref = rows.flatMap (fun r =>
      if (ref_rows rows ref r.country r.year).isEmpty then
        [(r.country, r.occupation, V.div r.wage V.na)]
      else (ref_rows rows ref r.country r.year).map
        (fun s => (r.country, r.occupation, V.div r.wage s.wage))) := rfl
  rw [hrr]
  exact key rows huniq

/-- C1: for every wage dataset in which each country-year has at most one
reference-category row, the calculator computes the ratio inside each
entity-period first — the output cell at (entity, category) is the mean
over that group's rows of `wage / (reference wage of the row's own
period)` — and only then averages.  On the 2-period, 2-category fixture
with nonzero reference wages this is the mean of the two per-period
ratios; on the concrete instance (per-period ratios 1 and 1/2) the result
3/4 differs from the ratio of period-averaged wages 2/3. -/
theorem claim_c1 (rows : List WageRow) (ref c o : Nat)
    (huniq : ∀ r ∈ rows, (ref_rows rows ref r.country r.year).length ≤ 1) :
    calculate_wage_ratios rows ref c o
      = vmean ((rows.filter (fun r => r.country == c && r.occupation == o)).map
          (fun r => V.div r.wage (refWage rows ref r.country r.year))) ∧
    (∀ w1 r1 w2 r2 : ℚ, r1 ≠ 0 → r2 ≠ 0 →
      calculate_wage_ratios (fixW w1 r1 w2 r2) 9 0 1 = V.fin ((w1 / r1 + w2 / r2) / 2)) ∧
    calculate_wage_ratios (fixW 1 1 1 2) 9 0 1 = V.fin ((1 / 1 + 1 / 2) / 2) ∧
    ((1 : ℚ) / 1 + 1 / 2) / 2 ≠ (1 + 1) / 2 / ((1 + 2) / 2) := by
  refine ⟨?_, ?_, ?_, by norm_num⟩
  · unfold calculate_wage_ratios
    rw [row_ratios_key rows ref c o huniq]
  · intro w1 r1 w2 r2 h1 h2
    simp [calculate_wage_ratios, fixW, row_ratios, ref_rows, V.div, vmean, h1, h2,
      List.filter, List.flatMap, List.filterMap, V.add, fin_beq_na]
  · norm_num [calculate_wage_ratios, fixW, row_ratios, ref_rows, V.div, vmean,
      List.filter, List.flatMap, List.filterMap, V.add, fin_beq_na]

/-- Witness for C1 at the concrete fixture with per-period ratios 1 and 1/2. -/
theorem claim_c1_witness :
    calculate_wage_ratios (fixW 1 1 1 2) 9 0 1
      = vmean (((fixW 1 1 1 2).filter (fun r => r.country == 0 && r.occupation == 1)).map
          (fun r => V.div r.wage (refWage (fixW 1 1 1 2) 9 r.country r.year))) ∧
    calculate_wage_ratios (fixW 1 1 1 2) 9 0 1 = V.fin ((1 / 1 + 1 / 2) / 2) ∧
    ((1 : ℚ) / 1 + 1 / 2) / 2 ≠ (1 + 1) / 2 / ((1 + 2) / 2) := by
  have h := claim_c1 (fixW 1 1 1 2) 9 0 1 (by decide)
  exact ⟨h.1, h.2.2.1, h.2.2.2⟩

/-- C5 counterexample: with wages 2,3 for category 1 and reference wages
1,0, the zero-reference period is NOT excluded: its ratio is +inf, which
propagates into the per-entity-category mean, instead of the mean of the
remaining defined ratios (2) that the claim predicts. -/
theorem claim_c5_counterexample :
    calculate_wage_ratios rowsZeroRef 9 0 1 = V.pinf ∧ V.pinf ≠ V.fin 2 := by
  constructor
  · norm_num [calculate_wage_ratios, rowsZeroRef, row_ratios, ref_rows, V.div, vmean,
      List.filter, List.flatMap, List.filterMap, V.add, fin_beq_na, pinf_beq_na]
  · intro h; cases h

/-- C5 (amended): with fully observed nonnegative wages every produced wage
ratio is NaN, +inf or finite nonnegative (never negative); a period whose
reference-category wage is missing contributes a NaN ratio that is skipped
by the mean (excluded, not zero-filled) — on the fixture with the period-2
reference row absent the result is the remaining ratio 2, not 1; a zero
reference wage instead yields an infinite ratio that propagates. -/
theorem claim_c5 (rows : List WageRow) (ref c o : Nat)
    (h : ∀ r ∈ rows, isNNFin r.wage = true) :
    (calculate_wage_ratios rows ref c o = V.na ∨
     calculate_wage_ratios rows ref c o = V.pinf ∨
     ∃ q, calculate_wage_ratios rows ref c o = V.fin q ∧ 0 ≤ q) ∧
    calculate_wage_ratios rowsMissRef 9 0 1 = V.fin 2 := by
  constructor
  · exact vmean_nn _ (row_ratios_nn rows ref c o h)
  · norm_num [calculate_wage_ratios, rowsMissRef, row_ratios, ref_rows, V.div, vmean,
      List.filter, List.flatMap, List.filterMap, V.add, fin_beq_na, na_beq_na,
      div_na_right]

/-- Witness for C5 (amended) at the missing-reference fixture. -/
theorem claim_c5_witness :
    (calculate_wage_ratios rowsMissRef 9 0 1 = V.na ∨
     calculate_wage_ratios rowsMissRef 9 0 1 = V.pinf ∨
     ∃ q, calculate_wage_ratios rowsMissRef 9 0 1 = V.fin q ∧ 0 ≤ q) ∧
    calculate_wage_ratios rowsMissRef 9 0 1 = V.fin 2 :=
  claim_c5 rowsMissRef 9 0 1 (by decide)

-- ---------------------------------------------------------------------------
-- Average wage and the distortion/MPL calculator
-- (workbench/lib/pipeline.py `calculate_average_wage` (method="simple"),
--  `calculate_mpl`, `calculate_chip`; reproduction estimate.py
--  `Estimator.calculate_mpl`)
-- ---------------------------------------------------------------------------

/-- `calculate_average_wage(method="simple")`:
`groupby(["country","year"])["wage"].mean()` — the unweighted mean of the
observed wages of one country-year. -/
def calculate_average_wage_simple (rows : List WageRow) (c y : Nat) : V :=
  vmean ((rows.filter (fun r => r.country == c && r.year == y)).map (fun r => r.wage))

/-- The finite observed wages of one country-year, in row order. -/
def wage_obs (rows : List WageRow) (c y : Nat) : List ℚ :=
  obsQ ((rows.filter (fun r => r.country == c && r.year == y)).map (fun r => r.wage))

/-- Folding IEEE addition over finite cells sums them. -/
theorem foldl_add_fin (qs : List ℚ) (s : ℚ) :
    (qs.map V.fin).foldl V.add (V.fin s) = V.fin (s + qs.sum) := by
  induction qs generalizing s with
  | nil => simp
  | cons q t ih =>
    simp only [List.map_cons, List.foldl_cons, V.add, List.sum_cons]
    rw [ih]
    ring_nf

/-- Filtering the NaN cells out of a list with no infinities leaves exactly
the finite cells. -/
theorem filter_na_eq_obs (l : List V) (h : ∀ v ∈ l, notInf v = true) :
    l.filter (fun v => !(v == V.na)) = (obsQ l).map V.fin := by
  induction l with
  | nil => rfl
  | cons v t ih =>
    have hv := h v (List.mem_cons_self v t)
    have ht : ∀ x ∈ t, notInf x = true := fun x hx => h x (List.mem_cons_of_mem v hx)
    cases v with
    | na => simpa [obsQ, List.filter, List.filterMap] using ih ht
    | fin q => simpa [obsQ, List.filter, List.filterMap, fin_beq_na] using ih ht
    | pinf => simp [notInf] at hv
    | ninf => simp [notInf] at hv

/-- The pandas mean of a column of NaN-or-finite cells with at least one
observation is the sum of the observed values over their count. -/
theorem vmean_fin (l : List V) (h : ∀ v ∈ l, notInf v = true)
    (hne : obsQ l ≠ []) :
    vmean l = V.fin ((obsQ l).sum / ((obsQ l).length : ℚ)) := by
  unfold vmean
  rw [filter_na_eq_obs l h]
  have hlen : 0 < (obsQ l).length := List.length_pos.mpr hne
  have hlenq : ((obsQ l).length : ℚ) ≠ 0 := by
    exact_mod_cast Nat.pos_iff_ne_zero.mp hlen
  have hemp : ((obsQ l).map V.fin).isEmpty = false := by
    simp [List.isEmpty_iff, hne]
  simp only [hemp, Bool.false_eq_true, if_false, foldl_add_fin, List.length_map, V.div,
    hlenq, zero_add]

/-- One row of the estimation-ready dataset (`est_data`), as consumed by
`calculate_mpl` and `calculate_chip`.  Real numbers stand in for floats;
`alpha` is an Option because the column may be missing before `fillna`. -/
structure EstRow where
  eff_labor : ℝ
  rnna : ℝ
  hc : ℝ
  alpha : Option ℝ
  aw_wage : ℝ
  elementary_wage : ℝ

/-- `calculate_mpl`: `alpha = alpha.fillna(default_alpha)`;
`k_per_l_hc = (rnna / eff_labor) * hc`;
`mpl = (1 - alpha) * k_per_l_hc ** alpha` (the human-capital index
multiplies inside the base of the exponentiation). -/
noncomputable def calculate_mpl (row : EstRow) (default_alpha : ℝ) : ℝ :=
  let a := row.alpha.getD default_alpha
  let k_per_l_hc := (row.rnna / row.eff_labor) * row.hc
  (1 - a) * Real.rpow k_per_l_hc a

/-- `calculate_chip`: `theta = mpl / aw_wage`. -/
noncomputable def calculate_theta (row : EstRow) (default_alpha : ℝ) : ℝ :=
  calculate_mpl row default_alpha / row.aw_wage

/-- `calculate_chip`: `chip_value = elementary_wage * theta`. -/
noncomputable def calculate_chip_value (row : EstRow) (default_alpha : ℝ) : ℝ :=
  row.elementary_wage * calculate_theta row default_alpha

/-- C2: the distortion calculator computes
`k_eff = (capital / effective_volume) * hc` with `hc` inside the base of
the exponentiation, `mpl = (1 - alpha) * k_eff ^ alpha`,
`theta = mpl / average_wage` with the average wage the simple unweighted
mean of the observed wages of the entity-period, and
`adjusted_value = lowest_skill_wage * theta`. -/
theorem claim_c2 (rows : List WageRow) (c y : Nat) (L K hc α aw elem d : ℝ)
    (h : ∀ r ∈ rows, r.country = c → r.year = y → notInf r.wage = true)
    (hne : wage_obs rows c y ≠ []) :
    calculate_average_wage_simple rows c y
      = V.fin ((wage_obs rows c y).sum / ((wage_obs rows c y).length : ℚ)) ∧
    calculate_mpl ⟨L, K, hc, some α, aw, elem⟩ d = (1 - α) * Real.rpow ((K / L) * hc) α ∧
    calculate_chip_value
        ⟨L, K, hc, some α,
         ((((wage_obs rows c y).sum / ((wage_obs rows c y).length : ℚ)) : ℚ) : ℝ), elem⟩ d
      = elem * ((1 - α) * Real.rpow ((K / L) * hc) α
          / ((((wage_obs rows c y).sum / ((wage_obs rows c y).length : ℚ)) : ℚ) : ℝ)) := by
  refine ⟨?_, ?_, ?_⟩
  · apply vmean_fin
    · intro v hv
      rw [List.mem_map] at hv
      obtain ⟨r, hr, hvr⟩ := hv
      rw [List.mem_filter] at hr
      have hcy := hr.2
      simp only [Bool.and_eq_true, beq_iff_eq] at hcy
      rw [← hvr]
      exact h r hr.1 hcy.1 hcy.2
    · exact hne
  · rfl
  · simp [calculate_chip_value, calculate_theta, calculate_mpl, Option.getD]

/-- Witness data for C2: wages 2, 4 and one NaN for country 0, year 1. -/
def rowsC2w : List WageRow :=
  [⟨0, 1, 1, V.fin 2⟩, ⟨0, 1, 2, V.fin 4⟩, ⟨0, 1, 3, V.na⟩]

/-- Witness for C2: three wage rows (2, 4, NaN) for country 0 year 1,
unit capital intensity and alpha 1/2. -/
theorem claim_c2_witness :
    calculate_average_wage_simple rowsC2w 0 1
      = V.fin ((wage_obs rowsC2w 0 1).sum / ((wage_obs rowsC2w 0 1).length : ℚ)) ∧
    calculate_mpl ⟨1, 1, 1, some (1 / 2), 3, 5⟩ 0
      = (1 - 1 / 2) * Real.rpow ((1 / 1) * 1) (1 / 2) ∧
    calculate_chip_value
        ⟨1, 1, 1, some (1 / 2),
         ((((wage_obs rowsC2w 0 1).sum / ((wage_obs rowsC2w 0 1).length : ℚ)) : ℚ) : ℝ), 5⟩ 0
      = 5 * ((1 - 1 / 2) * Real.rpow ((1 / 1) * 1) (1 / 2)
          / ((((wage_obs rowsC2w 0 1).sum / ((wage_obs rowsC2w 0 1).length : ℚ)) : ℚ) : ℝ)) :=
  claim_c2 rowsC2w 0 1 1 1 1 (1 / 2) 3 5 0 (by decide) (by decide)

-- ---------------------------------------------------------------------------
-- Capital-share validity filtering
-- (workbench/lib/pipeline.py `estimate_alphas` retention test `0 < alpha < 1`,
--  reproduction estimate.py `Estimator._filter_valid_alphas`)
-- ---------------------------------------------------------------------------

/-- The retention test `(alpha_raw > alpha_min) & (alpha_raw < alpha_max)`
under float comparison semantics (comparisons with NaN are false). -/
def alpha_valid (amin amax : ℚ) (a : V) : Bool :=
  V.lt (V.fin amin) a && V.lt a (V.fin amax)

/-- `_filter_valid_alphas` per row:
`alpha = alpha_raw.where(alpha_valid, np.nan)`. -/
def filter_valid_alpha (amin amax : ℚ) (a : V) : V :=
  if alpha_valid amin amax a then a else V.na

/-- C3: a raw capital-share estimate is retained as directly estimated iff
it is finite and lies strictly inside the configured open interval; a
rejected estimate (including NaN and infinities) is replaced by NaN, which
routes the entity to the imputation path. -/
theorem claim_c3 (amin amax : ℚ) (a : V) :
    (alpha_valid amin amax a = true ↔ ∃ q, a = V.fin q ∧ amin < q ∧ q < amax) ∧
    (alpha_valid amin amax a = false → filter_valid_alpha amin amax a = V.na) ∧
    (alpha_valid amin amax a = true → filter_valid_alpha amin amax a = a) := by
  refine ⟨?_, ?_, ?_⟩
  · cases a <;> simp [alpha_valid, V.lt]
  · intro hf
    simp [filter_valid_alpha, hf]
  · intro ht
    simp [filter_valid_alpha, ht]

/-- Witness for C3 at the default interval (0,1) and the estimate 2, which
is rejected and replaced by NaN. -/
theorem claim_c3_witness :
    (alpha_valid 0 1 (V.fin 2) = true ↔ ∃ q, V.fin 2 = V.fin q ∧ 0 < q ∧ q < 1) ∧
    (alpha_valid 0 1 (V.fin 2) = false → filter_valid_alpha 0 1 (V.fin 2) = V.na) ∧
    (alpha_valid 0 1 (V.fin 2) = true → filter_valid_alpha 0 1 (V.fin 2) = V.fin 2) :=
  claim_c3 0 1 (V.fin 2)

-- ---------------------------------------------------------------------------
-- Ordinary least squares (np.linalg.lstsq on a full-column-rank design)
-- ---------------------------------------------------------------------------

/-- Dot product of two rational lists (up to the shorter length). -/
def dotL (a b : List ℚ) : ℚ :=
  ((a.zip b).map (fun p => p.1 * p.2)).sum

/-- Gaussian elimination on an augmented n x (n+1) system, `fuel = n`.
Returns `none` when no nonzero pivot exists (singular system), the
counterpart of a `LinAlgError` / rank-deficient design in the source. -/
def gaussSolve : Nat → List (List ℚ) → Option (List ℚ)
  | 0, _ => some []
  | n + 1, rows =>
    match rows.findIdx? (fun r => !(r.headD 0 == 0)) with
    | none => none
    | some i =>
      let pr := rows.getD i []
      let p := pr.headD 0
      let prn := (pr.map (fun x => x / p)).drop 1
      let others := (rows.eraseIdx i).map
        (fun r => List.zipWith (fun a c => a - r.headD 0 * c) (r.drop 1) prn)
      match gaussSolve n others with
      | none => none
      | some xs =>
        let rhs := prn.getD n 0
        let coeffs := prn.take n
        some ((rhs - dotL coeffs xs) :: xs)

/-- `np.linalg.lstsq` on the design `[1, x_1, ..., x_k]`: solve the normal
equations of the intercept-plus-one-coefficient-per-predictor model.  For a
full-column-rank design this is the unique least-squares solution; a
singular normal matrix is reported as `none` (regression failure). -/
def lstsqN (xs : List (List ℚ)) (ys : List ℚ) : Option (List ℚ) :=
  let rowsD := xs.map (fun x => 1 :: x)
  let k := (rowsD.headD []).length
  let col := fun (i : Nat) => rowsD.map (fun r => r.getD i 0)
  let A := (List.range k).map (fun i => (List.range k).map (fun j => dotL (col i) (col j)))
  let b := (List.range k).map (fun i => dotL (col i) ys)
  gaussSolve k ((A.zip b).map (fun p => p.1 ++ [p.2]))

-- ---------------------------------------------------------------------------
-- Alpha estimation selection and imputation
-- (workbench/lib/pipeline.py `estimate_alphas`, `impute_alphas`)
-- ---------------------------------------------------------------------------

/-- One row of the accepted-alphas table (`alphas` in `estimate_alphas`). -/
structure AlphaRow where
  country : Nat
  alpha : ℚ
deriving DecidableEq, Repr

/-- One row of the per-country characteristics table (`country_chars`):
the per-country period-means of `ln(rgdpna / (eff_labor * hc))` and
`ln(rnna / (eff_labor * hc))`.  The log means are computed upstream with
real logarithms and can be NaN or infinite, so the cells are `V`; the
table is passed in rather than recomputed here. -/
structure CharRow where
  country : Nat
  ln_y : V
  ln_k : V
deriving DecidableEq, Repr

/-- The left-merge lookup of a country's characteristics row. -/
def char_for (chars : List CharRow) (c : Nat) : Option CharRow :=
  chars.find? (fun ch => ch.country == c)

/-- `np.isfinite` on both characteristics. -/
def finChar (ch : CharRow) : Bool :=
  (match ch.ln_y with | V.fin _ => true | _ => false) &&
  (match ch.ln_k with | V.fin _ => true | _ => false)

/-- The rational carried by a finite cell (0 otherwise; only applied to
cells already known to be finite). -/
def qOf : V → ℚ
  | V.fin q => q
  | _ => 0

/-- `np.clip(x, lo, hi)`. -/
def clipQ (lo hi x : ℚ) : ℚ := min hi (max lo x)

/-- `missing_countries = [c for c in all_countries if c not in estimated]`. -/
def missing_of (alphas : List AlphaRow) (all_countries : List Nat) : List Nat :=
  all_countries.filter (fun c => !((alphas.map (fun a => a.country)).contains c))

/-- `alphas.merge(country_chars, on="country", how="left")`, keeping only
the rows whose merge found a characteristics row (the others are dropped by
the subsequent `dropna`). -/
def alphas_with_chars (alphas : List AlphaRow) (chars : List CharRow) :
    List (AlphaRow × CharRow) :=
  alphas.filterMap (fun a => (char_for chars a.country).map (fun ch => (a, ch)))

/-- `valid_data = alphas_with_chars.dropna(subset=["alpha","ln_y","ln_k"])`. -/
def valid_alpha_chars (alphas : List AlphaRow) (chars : List CharRow) :
    List (AlphaRow × CharRow) :=
  (alphas_with_chars alphas chars).filter
    (fun p => !(p.2.ln_y == V.na) && !(p.2.ln_k == V.na))

/-- The rows surviving `np.isfinite(X).all(axis=1) & np.isfinite(y)`. -/
def finite_alpha_chars (alphas : List AlphaRow) (chars : List CharRow) :
    List (AlphaRow × CharRow) :=
  (valid_alpha_chars alphas chars).filter (fun p => finChar p.2)

/-- `missing_chars`: the characteristics rows of missing countries,
after `dropna` and the `isfinite` filter. -/
def missing_fin_chars (chars : List CharRow) (missing : List Nat) : List CharRow :=
  ((chars.filter (fun ch => missing.contains ch.country)).filter
    (fun ch => !(ch.ln_y == V.na) && !(ch.ln_k == V.na))).filter finChar

/-- `impute_alphas`: two-tier fallback for countries without an accepted
alpha.  If at least 10 merged rows survive `dropna` AND at least 10 survive
the `isfinite` mask, fit the second-stage OLS `alpha ~ ln_y + ln_k`,
predict each missing country with finite characteristics and clip the
prediction to [0.01, 0.99], then give every remaining missing country the
cross-entity mean alpha; otherwise (or on regression failure) give all
missing countries the mean alpha. -/
def impute_alphas (alphas : List AlphaRow) (chars : List CharRow)
    (mean_alpha : ℚ) (all_countries : List Nat) : List AlphaRow :=
  let missing := missing_of alphas all_countries
  if missing.isEmpty then alphas
  else if 10 ≤ (valid_alpha_chars alphas chars).length then
    if (finite_alpha_chars alphas chars).length < 10 then
      alphas ++ missing.map (fun c => AlphaRow.mk c mean_alpha)
    else
      match lstsqN
          ((finite_alpha_chars alphas chars).map (fun p => [qOf p.2.ln_y, qOf p.2.ln_k]))
          ((finite_alpha_chars alphas chars).map (fun p => p.1.alpha)) with
      | none => alphas ++ missing.map (fun c => AlphaRow.mk c mean_alpha)
      | some beta =>
        let imputed := (missing_fin_chars chars missing).map
          (fun ch => AlphaRow.mk ch.country
            (clipQ (1 / 100) (99 / 100) (dotL beta [1, qOf ch.ln_y, qOf ch.ln_k])))
        let alphas2 := alphas ++ imputed
        let remaining := missing.filter
          (fun c => !((alphas2.map (fun a => a.country)).contains c))
        alphas2 ++ remaining.map (fun c => AlphaRow.mk c mean_alpha)
  else alphas ++ missing.map (fun c => AlphaRow.mk c mean_alpha)

theorem finChar_ne_na {ch : CharRow} (h : finChar ch = true) :
    (!(ch.ln_y == V.na) && !(ch.ln_k == V.na)) = true := by
  cases hy : ch.ln_y <;> cases hk : ch.ln_k <;>
    simp [finChar, hy, hk] at h ⊢

/-- C4: for a missing country with finite characteristics, when at least
10 countries have both a valid alpha and finite mean characteristics the
second-stage OLS prediction, clipped to [0.01, 0.99], is assigned; when
fewer than 10 do, every missing country receives the cross-entity mean
alpha.  The two tiers apply in that fixed priority order. -/
theorem claim_c4 (alphas : List AlphaRow) (chars : List CharRow) (mean_alpha : ℚ)
    (all_countries : List Nat) (m : Nat) (ch : CharRow) (beta : List ℚ)
    (hm : m ∈ all_countries)
    (hnm : ∀ a ∈ alphas, a.country ≠ m)
    (hch : ch ∈ chars) (hchm : ch.country = m) (hfin : finChar ch = true) :
    (10 ≤ (finite_alpha_chars alphas chars).length →
     lstsqN ((finite_alpha_chars alphas chars).map (fun p => [qOf p.2.ln_y, qOf p.2.ln_k]))
            ((finite_alpha_chars alphas chars).map (fun p => p.1.alpha)) = some beta →
     AlphaRow.mk m (clipQ (1 / 100) (99 / 100) (dotL beta [1, qOf ch.ln_y, qOf ch.ln_k]))
        ∈ impute_alphas alphas chars mean_alpha all_countries ∧
     1 / 100 ≤ clipQ (1 / 100) (99 / 100) (dotL beta [1, qOf ch.ln_y, qOf ch.ln_k]) ∧
     clipQ (1 / 100) (99 / 100) (dotL beta [1, qOf ch.ln_y, qOf ch.ln_k]) ≤ 99 / 100) ∧
    ((finite_alpha_chars alphas chars).length < 10 →
     impute_alphas alphas chars mean_alpha all_countries
       = alphas ++ (missing_of alphas all_countries).map
           (fun c => AlphaRow.mk c mean_alpha)) := by
  have hmem : m ∈ missing_of alphas all_countries := by
    rw [missing_of, List.mem_filter]
    refine ⟨hm, ?_⟩
    simp only [Bool.not_eq_true']
    rw [← Bool.not_eq_true, List.elem_iff]
    intro hcon
    rw [List.mem_map] at hcon
    obtain ⟨a, ha, hac⟩ := hcon
    exact hnm a ha hac
  have hne : (missing_of alphas all_countries).isEmpty = false := by
    simpa using List.ne_nil_of_mem hmem
  constructor
  · intro h10 hbeta
    have h10v : 10 ≤ (valid_alpha_chars alphas chars).length :=
      le_trans h10 (List.length_filter_le _ _)
    refine ⟨?_, le_min (by norm_num) (le_max_left _ _), min_le_left _ _⟩
    unfold impute_alphas
    simp only [hne, Bool.false_eq_true, if_false]
    rw [if_pos h10v, if_neg (not_lt.mpr h10), hbeta]
    simp only [List.mem_append, List.mem_map]
    left; right
    refine ⟨ch, ?_, by rw [hchm]⟩
    unfold missing_fin_chars
    rw [List.mem_filter]
    refine ⟨?_, hfin⟩
    rw [List.mem_filter]
    refine ⟨?_, finChar_ne_na hfin⟩
    rw [List.mem_filter]
    refine ⟨hch, ?_⟩
    rw [List.elem_iff, hchm]
    exact hmem
  · intro h10
    unfold impute_alphas
    simp only [hne, Bool.false_eq_true, if_false]
    by_cases hv : 10 ≤ (valid_alpha_chars alphas chars).length
    · rw [if_pos hv, if_pos h10]
    · rw [if_neg hv]

/-- Witness data for C4: ten countries with accepted alpha 3 (the
imputation step takes the accepted list as given, so an integer value
keeps the fixture kernel-computable; the prediction is then clipped). -/
def alphasW : List AlphaRow :=
  [⟨1, 3⟩, ⟨2, 3⟩, ⟨3, 3⟩, ⟨4, 3⟩, ⟨5, 3⟩,
   ⟨6, 3⟩, ⟨7, 3⟩, ⟨8, 3⟩, ⟨9, 3⟩, ⟨10, 3⟩]

/-- Witness data for C4: finite characteristics for countries 1..11. -/
def charsW : List CharRow :=
  [⟨1, V.fin 1, V.fin 1⟩, ⟨2, V.fin 2, V.fin 4⟩, ⟨3, V.fin 3, V.fin 9⟩,
   ⟨4, V.fin 4, V.fin 16⟩, ⟨5, V.fin 5, V.fin 25⟩, ⟨6, V.fin 6, V.fin 36⟩,
   ⟨7, V.fin 7, V.fin 49⟩, ⟨8, V.fin 8, V.fin 64⟩, ⟨9, V.fin 9, V.fin 81⟩,
   ⟨10, V.fin 10, V.fin 100⟩, ⟨11, V.fin 1, V.fin 1⟩]

/-- Witness data for C4: all eleven countries; country 11 has no alpha. -/
def allW : List Nat := [1, 2, 3, 4, 5, 6, 7, 8, 9, 10, 11]

/-- The explicit value of `finite_alpha_chars` on the C4 witness data. -/
def pairsW : List (AlphaRow × CharRow) :=
  [(⟨1, 3⟩, ⟨1, V.fin 1, V.fin 1⟩), (⟨2, 3⟩, ⟨2, V.fin 2, V.fin 4⟩),
   (⟨3, 3⟩, ⟨3, V.fin 3, V.fin 9⟩), (⟨4, 3⟩, ⟨4, V.fin 4, V.fin 16⟩),
   (⟨5, 3⟩, ⟨5, V.fin 5, V.fin 25⟩), (⟨6, 3⟩, ⟨6, V.fin 6, V.fin 36⟩),
   (⟨7, 3⟩, ⟨7, V.fin 7, V.fin 49⟩), (⟨8, 3⟩, ⟨8, V.fin 8, V.fin 64⟩),
   (⟨9, 3⟩, ⟨9, V.fin 9, V.fin 81⟩), (⟨10, 3⟩, ⟨10, V.fin 10, V.fin 100⟩)]

theorem finite_pairs_eq : finite_alpha_chars alphasW charsW = pairsW := by
  decide

set_option maxHeartbeats 1000000 in
/-- Witness for C4: country 11 receives the clipped second-stage OLS
prediction (the constant column fits exactly, so the raw prediction is 3,
clipped into [0.01, 0.99]). -/
theorem claim_c4_witness :
    AlphaRow.mk 11 (clipQ (1 / 100) (99 / 100)
        (dotL [3, 0, 0] [1, qOf (V.fin 1), qOf (V.fin 1)]))
      ∈ impute_alphas alphasW charsW 3 allW ∧
    1 / 100 ≤ clipQ (1 / 100) (99 / 100)
        (dotL [3, 0, 0] [1, qOf (V.fin 1), qOf (V.fin 1)]) ∧
    clipQ (1 / 100) (99 / 100)
        (dotL [3, 0, 0] [1, qOf (V.fin 1), qOf (V.fin 1)]) ≤ 99 / 100 :=
  (claim_c4 alphasW charsW 3 allW 11 ⟨11, V.fin 1, V.fin 1⟩ [3, 0, 0]
      (by decide) (by decide) (by decide) rfl (by decide)).1
    (by rw [finite_pairs_eq]; decide)
    (by rw [finite_pairs_eq]
        norm_num [lstsqN, gaussSolve, dotL, qOf, pairsW, List.range,
          List.range.loop, List.findIdx?, List.zipWith, List.eraseIdx, List.getD,
          List.headD])

-- ---------------------------------------------------------------------------
-- C10: hard-coded 0.33 fallback when no alpha is directly estimated
-- (workbench/lib/pipeline.py `estimate_alphas` lines 425-429 and
--  `calculate_mpl` fillna)
-- ---------------------------------------------------------------------------

/-- The retention step of `estimate_alphas`: keep the per-country raw OLS
slope only when `0 < alpha < 1` (float comparisons, so NaN and infinities
are rejected).  The raw slopes are produced upstream by the per-country
log-regression; this function models the acceptance filter applied to
them. -/
def estimate_alphas_sel (raws : List (Nat × V)) : List AlphaRow :=
  (raws.filter (fun p => alpha_valid 0 1 p.2)).map (fun p => AlphaRow.mk p.1 (qOf p.2))

/-- `mean_alpha = alphas["alpha"].mean() if len(alphas) > 0 else 0.33`. -/
def mean_alpha_of (alphas : List AlphaRow) : ℚ :=
  if alphas.isEmpty then 33 / 100
  else ((alphas.map (fun a => a.alpha)).sum) / (alphas.length : ℚ)

/-- C10: when no raw estimate is accepted, the accepted set is empty, the
mean alpha is the hard-coded 0.33, imputation assigns 0.33 to every
country via the mean fallback, and `calculate_mpl` fills a missing alpha
with that default instead of failing. -/
theorem claim_c10 (raws : List (Nat × V)) (chars : List CharRow) (cs : List Nat)
    (L K hcap aw elem : ℝ)
    (h : ∀ p ∈ raws, alpha_valid 0 1 p.2 = false) :
    estimate_alphas_sel raws = [] ∧
    mean_alpha_of (estimate_alphas_sel raws) = 33 / 100 ∧
    impute_alphas (estimate_alphas_sel raws) chars (33 / 100) cs
      = cs.map (fun c => AlphaRow.mk c (33 / 100)) ∧
    calculate_mpl ⟨L, K, hcap, none, aw, elem⟩ ((33 : ℝ) / 100)
      = (1 - 33 / 100) * Real.rpow ((K / L) * hcap) (33 / 100) := by
  have hsel : estimate_alphas_sel raws = [] := by
    unfold estimate_alphas_sel
    rw [List.filter_eq_nil_iff.mpr (fun p hp => by simp [h p hp]), List.map_nil]
  refine ⟨hsel, by rw [hsel]; rfl, ?_, rfl⟩
  rw [hsel]
  cases cs with
  | nil => rfl
  | cons c t =>
    unfold impute_alphas
    have hmiss : missing_of [] (c :: t) = c :: t := by
      unfold missing_of
      simp [List.filter]
    rw [hmiss]
    simp only [List.isEmpty_cons, Bool.false_eq_true, if_false]
    have hval : ¬(10 ≤ (valid_alpha_chars [] chars).length) := by
      simp [valid_alpha_chars, alphas_with_chars]
    rw [if_neg hval]
    simp

/-- Witness for C10: one rejected raw estimate (value 2), one country. -/
theorem claim_c10_witness :
    estimate_alphas_sel [(0, V.fin 2)] = [] ∧
    mean_alpha_of (estimate_alphas_sel [(0, V.fin 2)]) = 33 / 100 ∧
    impute_alphas (estimate_alphas_sel [(0, V.fin 2)]) [] (33 / 100) [0]
      = [0].map (fun c => AlphaRow.mk c (33 / 100)) ∧
    calculate_mpl ⟨1, 1, 1, none, 1, 1⟩ ((33 : ℝ) / 100)
      = (1 - 33 / 100) * Real.rpow ((1 / 1) * 1) (33 / 100) :=
  claim_c10 [(0, V.fin 2)] [] [0] 1 1 1 1 1 (by decide)

-- ---------------------------------------------------------------------------
-- Imputation engine (workbench/lib/impute.py `norm_predict`)
-- ---------------------------------------------------------------------------

/-- A row of a numeric pandas table: each cell observed or NaN (`none`). -/
abbrev TRow := List (Option ℚ)

/-- A numeric pandas table as a list of rows. -/
abbrev Table := List TRow

/-- The cell of a row at a column index (`none` outside the row). -/
def cellAt (row : TRow) (j : Nat) : Option ℚ := row.getD j none

/-- The cell of a table at row `i`, column `j`. -/
def cellT (tbl : Table) (i j : Nat) : Option ℚ := cellAt (tbl.getD i []) j

/-- `df[target].mean()`: mean of the observed cells of one column, `none`
when the column has no observation (an all-NaN mean is NaN). -/
def colMeanOpt (tbl : Table) (j : Nat) : Option ℚ :=
  let obs := tbl.filterMap (fun row => cellAt row j)
  if obs.isEmpty then none else some (obs.sum / (obs.length : ℚ))

/-- `df.loc[df[target].isna(), target] = m`, applied to one row: fill the
target cell with `m` when it is missing, keep it otherwise. -/
def fillRow (m : Option ℚ) (j : Nat) (row : TRow) : TRow :=
  match cellAt row j with
  | some _ => row
  | none => row.set j m

/-- Fill every missing cell of one column with the column mean. -/
def mean_fill (tbl : Table) (j : Nat) : Table :=
  tbl.map (fillRow (colMeanOpt tbl j) j)

/-- All predictor cells of a row are observed. -/
def predsObs (preds : List Nat) (row : TRow) : Bool :=
  preds.all (fun p => (cellAt row p).isSome)

/-- The complete training rows: target and all predictors observed. -/
def train_rows (tbl : Table) (target : Nat) (preds : List Nat) : Table :=
  tbl.filter (fun r => (cellAt r target).isSome && predsObs preds r)

/-- The OLS fit of the target on the predictors over the complete rows. -/
def fit_beta (tbl : Table) (target : Nat) (preds : List Nat) : Option (List ℚ) :=
  lstsqN ((train_rows tbl target preds).map (fun r => preds.map (fun p => (cellAt r p).getD 0)))
         ((train_rows tbl target preds).map (fun r => (cellAt r target).getD 0))

/-- Fill a missing target cell with the fitted-model prediction when all
predictors are observed; leave the row alone otherwise. -/
def ols_row (beta : List ℚ) (target : Nat) (preds : List Nat) (row : TRow) : TRow :=
  if (cellAt row target).isNone && predsObs preds row then
    row.set target (some (dotL beta (1 :: preds.map (fun p => (cellAt row p).getD 0))))
  else row

/-- `df.loc[pred_mask, target] = X_pred_const @ beta`. -/
def ols_fill (tbl : Table) (target : Nat) (preds : List Nat) (beta : List ℚ) : Table :=
  tbl.map (ols_row beta target preds)

/-- `norm_predict` for one target column, with the predictor columns
already filtered: untouched when nothing is missing; mean fill when there
is no predictor, fewer than 3 complete rows, the regression fails, or no
missing row has all predictors observed; otherwise fill predictions and
then fill the rows that are still missing with the mean of the column as
it stands after the predictions. -/
def norm_predict_core (tbl : Table) (target : Nat) (preds : List Nat) : Table :=
  if tbl.countP (fun r => (cellAt r target).isNone) = 0 then tbl
  else if preds.isEmpty then mean_fill tbl target
  else if (train_rows tbl target preds).length < 3 then mean_fill tbl target
  else
    match fit_beta tbl target preds with
    | none => mean_fill tbl target
    | some beta =>
      if tbl.countP (fun r => (cellAt r target).isNone && predsObs preds r) = 0 then
        mean_fill tbl target
      else mean_fill (ols_fill tbl target preds beta) target

/-- One iteration of the `norm_predict` target loop:
`available_predictors = [c for c in predictor_cols if c != target]`. -/
def norm_predict_col (tbl : Table) (target : Nat) (preds0 : List Nat) : Table :=
  norm_predict_core tbl target (preds0.filter (fun p => !(p == target)))

/-- `norm_predict`: impute each target column in turn, with every other
column of the table as predictor. -/
def norm_predict (tbl : Table) (targets : List Nat) : Table :=
  let cols := List.range ((tbl.headD []).length)
  targets.foldl (fun acc tc => norm_predict_col acc tc cols) tbl

theorem cellAt_set_eq (row : TRow) (j : Nat) (v : Option ℚ) (h : j < row.length) :
    cellAt (row.set j v) j = v := by
  unfold cellAt
  rw [List.getD_eq_getElem?_getD, List.getElem?_set_self]
  · simp
  · simpa using h

theorem cellAt_set_ne (row : TRow) (j k : Nat) (v : Option ℚ) (h : j ≠ k) :
    cellAt (row.set j v) k = cellAt row k := by
  unfold cellAt
  rw [List.getD_eq_getElem?_getD, List.getElem?_set_ne h, ← List.getD_eq_getElem?_getD]

theorem getD_map_row (l : Table) (f : TRow → TRow) (i : Nat) (h : i < l.length) :
    (l.map f).getD i [] = f (l.getD i []) := by
  rw [List.getD_eq_getElem?_getD, List.getElem?_map, List.getD_eq_getElem?_getD,
    List.getElem?_eq_getElem h]
  simp

theorem getD_default_row (l : Table) (i : Nat) (h : l.length ≤ i) : l.getD i [] = [] := by
  rw [List.getD_eq_getElem?_getD, List.getElem?_eq_none]
  · rfl
  · exact h

theorem getD_mem_row (l : Table) (i : Nat) (h : i < l.length) : l.getD i [] ∈ l := by
  rw [List.getD_eq_getElem?_getD, List.getElem?_eq_getElem h]
  exact List.getElem_mem h

theorem fillRow_obs (m : Option ℚ) (j : Nat) (row : TRow) (q : ℚ)
    (h : cellAt row j = some q) : fillRow m j row = row := by
  unfold fillRow
  rw [h]

theorem fillRow_missing (m : Option ℚ) (j : Nat) (row : TRow)
    (h : cellAt row j = none) : fillRow m j row = row.set j m := by
  unfold fillRow
  rw [h]

theorem fillRow_pres (m : Option ℚ) (j k : Nat) (row : TRow) (q : ℚ)
    (h : cellAt row k = some q) : cellAt (fillRow m j row) k = some q := by
  unfold fillRow
  cases hc : cellAt row j with
  | some v => exact h
  | none =>
    by_cases hjk : j = k
    · subst hjk; rw [hc] at h; cases h
    · rw [cellAt_set_ne row j k m hjk]; exact h

theorem ols_row_pres (beta : List ℚ) (target : Nat) (preds : List Nat) (k : Nat)
    (row : TRow) (q : ℚ) (h : cellAt row k = some q) :
    cellAt (ols_row beta target preds row) k = some q := by
  unfold ols_row
  split
  · rename_i hcond
    by_cases hjk : target = k
    · subst hjk
      simp only [Bool.and_eq_true, Option.isNone_iff_eq_none] at hcond
      rw [hcond.1] at h; cases h
    · rw [cellAt_set_ne row target k _ hjk]; exact h
  · exact h

theorem mean_fill_pres (tbl : Table) (target i j : Nat) (q : ℚ)
    (h : cellT tbl i j = some q) : cellT (mean_fill tbl target) i j = some q := by
  by_cases hi : i < tbl.length
  · unfold mean_fill cellT
    rw [getD_map_row tbl _ i hi]
    exact fillRow_pres _ _ _ _ _ h
  · unfold cellT at h
    rw [getD_default_row tbl i (le_of_not_lt hi)] at h
    cases h

theorem ols_fill_pres (tbl : Table) (target : Nat) (preds : List Nat) (beta : List ℚ)
    (i j : Nat) (q : ℚ) (h : cellT tbl i j = some q) :
    cellT (ols_fill tbl target preds beta) i j = some q := by
  by_cases hi : i < tbl.length
  · unfold ols_fill cellT
    rw [getD_map_row tbl _ i hi]
    exact ols_row_pres _ _ _ _ _ _ h
  · unfold cellT at h
    rw [getD_default_row tbl i (le_of_not_lt hi)] at h
    cases h

/-- `norm_predict_col` always returns the table itself, a mean fill of it,
or a mean fill of its OLS fill. -/
theorem npc_shape (tbl : Table) (target : Nat) (preds0 : List Nat) :
    norm_predict_col tbl target preds0 = tbl ∨
    norm_predict_col tbl target preds0 = mean_fill tbl target ∨
    ∃ beta, norm_predict_col tbl target preds0
      = mean_fill (ols_fill tbl target (preds0.filter (fun p => !(p == target))) beta) target := by
  unfold norm_predict_col norm_predict_core
  split
  · exact Or.inl rfl
  · split
    · exact Or.inr (Or.inl rfl)
    · split
      · exact Or.inr (Or.inl rfl)
      · split
        · exact Or.inr (Or.inl rfl)
        · split
          · exact Or.inr (Or.inl rfl)
          · rename_i beta _ _
            exact Or.inr (Or.inr ⟨beta, rfl⟩)

theorem npc_pres (tbl : Table) (target : Nat) (preds0 : List Nat) (i j : Nat) (q : ℚ)
    (h : cellT tbl i j = some q) :
    cellT (norm_predict_col tbl target preds0) i j = some q := by
  rcases npc_shape tbl target preds0 with hs | hs | ⟨beta, hs⟩ <;> rw [hs]
  · exact h
  · exact mean_fill_pres tbl target i j q h
  · exact mean_fill_pres _ target i j q (ols_fill_pres tbl target _ beta i j q h)

theorem np_pres_aux (targets cols : List Nat) :
    ∀ (tbl : Table) (i j : Nat) (q : ℚ), cellT tbl i j = some q →
    cellT (targets.foldl (fun acc tc => norm_predict_col acc tc cols) tbl) i j = some q := by
  induction targets with
  | nil => intro tbl i j q h; exact h
  | cons t ts ih =>
    intro tbl i j q h
    exact ih _ i j q (npc_pres tbl t cols i j q h)

/-- A fully observed column is left untouched (`n_missing == 0`). -/
theorem npc_noop (tbl : Table) (t : Nat) (preds0 : List Nat)
    (hfull : ∀ r ∈ tbl, ∀ c ∈ r, c.isSome = true)
    (hlen : ∀ r ∈ tbl, t < r.length) :
    norm_predict_col tbl t preds0 = tbl := by
  unfold norm_predict_col norm_predict_core
  have h0 : tbl.countP (fun r => (cellAt r t).isNone) = 0 := by
    rw [List.countP_eq_zero]
    intro r hr
    have ht := hlen r hr
    have hc : cellAt r t = r[t] := by
      unfold cellAt
      rw [List.getD_eq_getElem?_getD, List.getElem?_eq_getElem ht]
      rfl
    have hs := hfull r hr r[t] (List.getElem_mem ht)
    rw [hc]
    intro hno
    rw [Option.isNone_iff_eq_none] at hno
    rw [hno] at hs
    cases hs
  rw [if_pos h0]

theorem np_noop_aux (targets cols : List Nat) (tbl : Table)
    (hfull : ∀ r ∈ tbl, ∀ c ∈ r, c.isSome = true)
    (hlen : ∀ t ∈ targets, ∀ r ∈ tbl, t < r.length) :
    targets.foldl (fun acc tc => norm_predict_col acc tc cols) tbl = tbl := by
  induction targets with
  | nil => rfl
  | cons t ts ih =>
    rw [List.foldl_cons, npc_noop tbl t cols hfull (hlen t (List.mem_cons_self t ts))]
    exact ih (fun x hx => hlen x (List.mem_cons_of_mem t hx))

/-- C8: imputation never changes an observed cell, and on a fully observed
table (targets within the column range) it is the identity. -/
theorem claim_c8 (tbl : Table) (targets : List Nat) :
    (∀ i j q, cellT tbl i j = some q → cellT (norm_predict tbl targets) i j = some q) ∧
    ((∀ r ∈ tbl, ∀ c ∈ r, c.isSome = true) →
     (∀ t ∈ targets, ∀ r ∈ tbl, t < r.length) →
     norm_predict tbl targets = tbl) := by
  constructor
  · intro i j q h
    exact np_pres_aux targets _ tbl i j q h
  · intro hfull hlen
    exact np_noop_aux targets _ tbl hfull hlen

/-- Witness data for C8: a fully observed 2x2 table. -/
def tblC8w : Table := [[some 1, some 2], [some 3, some 4]]

/-- Witness for C8: the observed cell (0,0) survives imputation, and the
complete table is returned unchanged. -/
theorem claim_c8_witness :
    cellT (norm_predict tblC8w [0, 1]) 0 0 = some 1 ∧
    norm_predict tblC8w [0, 1] = tblC8w :=
  ⟨(claim_c8 tblC8w [0, 1]).1 0 0 1 (by decide),
   (claim_c8 tblC8w [0, 1]).2 (by decide) (by decide)⟩

/-- The C6 table: target column 0 is a perfect linear function of
predictor column 1 on the three complete rows; row 3 misses only the
target; row 4 misses target and predictor. -/
def tblC6 : Table :=
  [[some 0, some 0], [some 2, some 1], [some 4, some 2], [none, some 3], [none, none]]

theorem train_c6 :
    train_rows tblC6 0 [1] = [[some 0, some 0], [some 2, some 1], [some 4, some 2]] := by
  decide

theorem fit_beta_c6 : fit_beta tblC6 0 [1] = some [0, 2] := by
  unfold fit_beta
  rw [train_c6]
  norm_num [lstsqN, gaussSolve, dotL, cellAt, List.range, List.range.loop,
    List.findIdx?, List.zipWith, List.eraseIdx, List.getD, List.headD]

theorem ols_fill_c6 :
    ols_fill tblC6 0 [1] [0, 2]
      = [[some 0, some 0], [some 2, some 1], [some 4, some 2],
         [some 6, some 3], [none, none]] := by
  norm_num [ols_fill, ols_row, cellAt, predsObs, dotL, tblC6, List.getD]

theorem np_core_c6 :
    norm_predict tblC6 [0] = mean_fill (ols_fill tblC6 0 [1] [0, 2]) 0 := by
  have hcols : (List.range ((tblC6.headD []).length)).filter (fun p => !(p == 0)) = [1] := by
    decide
  unfold norm_predict norm_predict_col
  simp only [List.foldl_cons, List.foldl_nil]
  rw [hcols]
  unfold norm_predict_core
  rw [if_neg (by decide : ¬(tblC6.countP (fun r => (cellAt r 0).isNone) = 0))]
  simp only [List.isEmpty_cons, Bool.false_eq_true, if_false]
  rw [if_neg (by rw [train_c6]; decide : ¬((train_rows tblC6 0 [1]).length < 3))]
  simp only [fit_beta_c6]
  rw [if_neg (by decide :
    ¬(tblC6.countP (fun r => (cellAt r 0).isNone && predsObs [1] r) = 0))]

/-- C6 counterexample: the fallback for the row whose predictors are also
missing is filled with 3, the mean of the target column AFTER the OLS
predictions were written (0,2,4,6), not with 2, the mean of the originally
observed values (0,2,4) that the claim specifies. -/
theorem claim_c6_counterexample :
    cellT (norm_predict tblC6 [0]) 4 0 = some 3 ∧
    ((0 : ℚ) + 2 + 4) / 3 = 2 ∧ (3 : ℚ) ≠ 2 := by
  refine ⟨?_, by norm_num, by norm_num⟩
  rw [np_core_c6, ols_fill_c6]
  norm_num [mean_fill, fillRow, cellT, cellAt, colMeanOpt, List.getD]
  constructor
  · simp
  · norm_num [List.filterMap_cons]

/-- C6 (amended): the engine partitions rows into complete and incomplete;
with fewer than 3 complete rows every missing target is filled with the
mean of the observed target values; otherwise the OLS model fitted on the
complete rows predicts each missing row whose predictors are all observed,
and a row still missing afterwards is filled with the mean of the target
column as it stands after those predictions (observed plus predicted
values), not the mean of only the originally observed values. -/
theorem claim_c6 (tbl : Table) (target : Nat) (preds0 preds : List Nat) (beta : List ℚ)
    (hpp : preds0.filter (fun p => !(p == target)) = preds)
    (hrect : ∀ r ∈ tbl, target < r.length) :
    ((tbl.countP (fun r => (cellAt r target).isNone) ≠ 0) →
     preds ≠ [] →
     (train_rows tbl target preds).length < 3 →
     ∀ i, i < tbl.length → cellT tbl i target = none →
       cellT (norm_predict_col tbl target preds0) i target = colMeanOpt tbl target) ∧
    (preds ≠ [] →
     3 ≤ (train_rows tbl target preds).length →
     fit_beta tbl target preds = some beta →
     tbl.countP (fun r => (cellAt r target).isNone && predsObs preds r) ≠ 0 →
     ∀ i, i < tbl.length → cellT tbl i target = none →
       ((predsObs preds (tbl.getD i []) = true →
         cellT (norm_predict_col tbl target preds0) i target
           = some (dotL beta (1 :: preds.map (fun p => (cellAt (tbl.getD i []) p).getD 0)))) ∧
        (predsObs preds (tbl.getD i []) = false →
         cellT (norm_predict_col tbl target preds0) i target
           = colMeanOpt (ols_fill tbl target preds beta) target))) := by
  have hep : ∀ (hne : preds ≠ []), preds.isEmpty = false := by
    intro hne
    simpa [List.isEmpty_iff] using hne
  constructor
  · intro h1 hne h3 i hi hmiss
    unfold norm_predict_col
    rw [hpp]
    unfold norm_predict_core
    rw [if_neg h1]
    simp only [hep hne, Bool.false_eq_true, if_false]
    rw [if_pos h3]
    unfold mean_fill cellT
    rw [getD_map_row tbl _ i hi]
    unfold cellT at hmiss
    rw [fillRow_missing _ _ _ hmiss]
    exact cellAt_set_eq _ target _ (hrect _ (getD_mem_row tbl i hi))
  · intro hne h3 hb hc i hi hmiss
    have h1 : tbl.countP (fun r => (cellAt r target).isNone) ≠ 0 := by
      intro h0
      apply hc
      have hle : tbl.countP (fun r => (cellAt r target).isNone && predsObs preds r)
          ≤ tbl.countP (fun r => (cellAt r target).isNone) := by
        apply List.countP_mono_left
        intro r _ hr
        rw [Bool.and_eq_true] at hr
        exact hr.1
      omega
    have hshape : norm_predict_col tbl target preds0
        = mean_fill (ols_fill tbl target preds beta) target := by
      unfold norm_predict_col
      rw [hpp]
      unfold norm_predict_core
      rw [if_neg h1]
      simp only [hep hne, Bool.false_eq_true, if_false]
      rw [if_neg (not_lt.mpr h3)]
      simp only [hb]
      rw [if_neg hc]
    rw [hshape]
    unfold cellT at hmiss
    have hrow := getD_mem_row tbl i hi
    have hilen : i < (ols_fill tbl target preds beta).length := by
      unfold ols_fill
      rw [List.length_map]
      exact hi
    constructor
    · intro hobs
      have hcond : ((cellAt (tbl.getD i []) target).isNone
          && predsObs preds (tbl.getD i [])) = true := by
        rw [hmiss, hobs]
        rfl
      unfold mean_fill cellT
      rw [getD_map_row _ _ i hilen]
      unfold ols_fill
      rw [getD_map_row tbl _ i hi]
      unfold ols_row
      rw [if_pos hcond]
      have hset : cellAt ((tbl.getD i []).set target
          (some (dotL beta (1 :: preds.map (fun p => (cellAt (tbl.getD i []) p).getD 0))))) target
          = some (dotL beta (1 :: preds.map (fun p => (cellAt (tbl.getD i []) p).getD 0))) :=
        cellAt_set_eq _ target _ (hrect _ hrow)
      rw [fillRow_obs _ _ _ _ hset]
      exact hset
    · intro hobs
      have hcond : ¬(((cellAt (tbl.getD i []) target).isNone
          && predsObs preds (tbl.getD i [])) = true) := by
        rw [hobs, Bool.and_false]
        exact Bool.false_ne_true
      unfold mean_fill cellT
      rw [getD_map_row _ _ i hilen]
      unfold ols_fill
      rw [getD_map_row tbl _ i hi]
      unfold ols_row
      rw [if_neg hcond]
      rw [fillRow_missing _ _ _ hmiss]
      exact cellAt_set_eq _ target _ (hrect _ hrow)

/-- Witness for C6 on the `tblC6` fixture: row 3 (predictors observed)
receives the OLS prediction; row 4 (predictors missing) receives the
post-prediction column mean. -/
theorem claim_c6_witness :
    cellT (norm_predict_col tblC6 0 [0, 1]) 3 0
      = some (dotL [0, 2] (1 :: [1].map (fun p => (cellAt (tblC6.getD 3 []) p).getD 0))) ∧
    cellT (norm_predict_col tblC6 0 [0, 1]) 4 0
      = colMeanOpt (ols_fill tblC6 0 [1] [0, 2]) 0 := by
  have h := (claim_c6 tblC6 0 [0, 1] [1] [0, 2] (by decide) (by decide)).2
    (by decide) (by rw [train_c6]; decide) fit_beta_c6 (by decide)
  exact ⟨(h 3 (by decide) (by decide)).1 (by decide),
         (h 4 (by decide) (by decide)).2 (by decide)⟩

-- ---------------------------------------------------------------------------
-- Weighted aggregation
-- (workbench/lib/aggregate.py `gdp_weighted` et al.; reproduction
--  aggregate.py `Aggregator._weighted_average`)
-- ---------------------------------------------------------------------------

/-- One row of the country-level table entering aggregation: the adjusted
value (`chip_value`) and the weighting measure (GDP, labor force, ...). -/
structure CountryRow where
  country : Nat
  chip_value : Option ℚ
  measure : Option ℚ
deriving DecidableEq, Repr

/-- `df.dropna(subset=[chip_col, measure_col])`: the included entities. -/
def valid_rows (rows : List CountryRow) : List CountryRow :=
  rows.filter (fun r => r.chip_value.isSome && r.measure.isSome)

/-- `total = df[measure_col].sum()` over the included entities. -/
def total_measure (rows : List CountryRow) : ℚ :=
  ((valid_rows rows).map (fun r => r.measure.getD 0)).sum

/-- `weight = measure / total`.  Exact rational division stands in for the
float division of the source; in particular a zero total gives weight 0
here where numpy gives an infinity or NaN — under either semantics the
weights do not sum to 1 when the total is zero. -/
def row_weight (rows : List CountryRow) (r : CountryRow) : ℚ :=
  r.measure.getD 0 / total_measure rows

/-- The sum of the normalized weights over the included entities. -/
def weights_sum (rows : List CountryRow) : ℚ :=
  ((valid_rows rows).map (row_weight rows)).sum

/-- `chip_value = (df[chip_col] * df["weight"]).sum()`. -/
def gdp_weighted_value (rows : List CountryRow) : ℚ :=
  ((valid_rows rows).map (fun r => r.chip_value.getD 0 * row_weight rows r)).sum

/-- The per-entity `contribution = chip_value * weight` column. -/
def contribution_list (rows : List CountryRow) : List ℚ :=
  (valid_rows rows).map (fun r => r.chip_value.getD 0 * row_weight rows r)

theorem list_sum_div {α : Type} (l : List α) (f : α → ℚ) (c : ℚ) :
    (l.map (fun x => f x / c)).sum = (l.map f).sum / c := by
  induction l with
  | nil => simp
  | cons a t ih =>
    simp only [List.map_cons, List.sum_cons, ih]
    rw [add_div]

theorem list_sum_pos_of_mem (l : List ℚ) (x : ℚ) (hx : x ∈ l) (hpos : 0 < x)
    (hnn : ∀ y ∈ l, 0 ≤ y) : 0 < l.sum := by
  induction l with
  | nil => cases hx
  | cons a t ih =>
    rw [List.sum_cons]
    rcases List.mem_cons.mp hx with h | h
    · have ht : 0 ≤ t.sum :=
        List.sum_nonneg (fun y hy => hnn y (List.mem_cons_of_mem a hy))
      have hxa : 0 < a := h ▸ hpos
      linarith
    · have ha : 0 ≤ a := hnn a (List.mem_cons_self a t)
      have := ih h (fun y hy => hnn y (List.mem_cons_of_mem a hy))
      linarith

/-- The C7 counterexample data: one entity with positive measure, one with
a negative measure of the same size, so the measures total zero. -/
def rowsC7 : List CountryRow :=
  [⟨0, some 1, some 2⟩, ⟨1, some 1, some (-2)⟩]

/-- C7 counterexample: entity 0 has an observed adjusted value and a
positive measure, yet the normalized weights sum to 0, not 1, because the
measures total zero (numpy would give infinite weights and a NaN sum;
either way not 1 within 1e-9). -/
theorem claim_c7_counterexample :
    (∃ r ∈ rowsC7, r.chip_value.isSome = true ∧ 0 < r.measure.getD 0) ∧
    weights_sum rowsC7 = 0 ∧ (0 : ℚ) ≠ 1 := by
  refine ⟨⟨⟨0, some 1, some 2⟩, by decide, by decide, by norm_num⟩, ?_, by norm_num⟩
  norm_num [weights_sum, row_weight, total_measure, valid_rows, rowsC7]

/-- C7 (amended): when every observed measure is nonnegative and some
included entity has a positive measure, the normalized weights sum to
exactly 1 and the returned global value is the sum of the per-entity
contributions `adjusted_value * weight` with `weight = measure / total`. -/
theorem claim_c7 (rows : List CountryRow)
    (hnn : ∀ r ∈ rows, 0 ≤ r.measure.getD 0)
    (hpos : ∃ r ∈ rows, r.chip_value.isSome = true ∧ 0 < r.measure.getD 0) :
    weights_sum rows = 1 ∧
    gdp_weighted_value rows
      = ((valid_rows rows).map
          (fun r => r.chip_value.getD 0 * (r.measure.getD 0 / total_measure rows))).sum ∧
    gdp_weighted_value rows = (contribution_list rows).sum := by
  obtain ⟨r0, hr0, hchip, hm⟩ := hpos
  have hr0v : r0 ∈ valid_rows rows := by
    rw [valid_rows, List.mem_filter]
    refine ⟨hr0, ?_⟩
    rw [Bool.and_eq_true]
    refine ⟨hchip, ?_⟩
    cases hmm : r0.measure with
    | none => rw [hmm] at hm; norm_num at hm
    | some q => rfl
  have htot : 0 < total_measure rows := by
    apply list_sum_pos_of_mem _ (r0.measure.getD 0)
    · exact List.mem_map_of_mem _ hr0v
    · exact hm
    · intro y hy
      rw [List.mem_map] at hy
      obtain ⟨s, hs, hsy⟩ := hy
      rw [← hsy]
      exact hnn s (List.mem_filter.mp hs).1
  refine ⟨?_, rfl, rfl⟩
  unfold weights_sum row_weight
  rw [list_sum_div (valid_rows rows) (fun r => r.measure.getD 0) (total_measure rows)]
  exact div_self (ne_of_gt htot)

/-- Witness data for C7: one fully observed entity, one lacking the
adjusted value, one lacking the measure. -/
def rowsC7w : List CountryRow :=
  [⟨0, some 5, some 2⟩, ⟨1, none, some 3⟩, ⟨2, some 7, none⟩]

/-- Witness for C7 on `rowsC7w`. -/
theorem claim_c7_witness :
    weights_sum rowsC7w = 1 ∧
    gdp_weighted_value rowsC7w
      = ((valid_rows rowsC7w).map
          (fun r => r.chip_value.getD 0 * (r.measure.getD 0 / total_measure rowsC7w))).sum ∧
    gdp_weighted_value rowsC7w = (contribution_list rowsC7w).sum :=
  claim_c7 rowsC7w (by decide)
    ⟨⟨0, some 5, some 2⟩, by decide, by decide, by norm_num⟩

-- ---------------------------------------------------------------------------
-- Effective labor
-- (workbench/lib/pipeline.py `calculate_effective_labor`; reproduction
--  clean.py `DataCleaner._calculate_effective_labor`)
-- ---------------------------------------------------------------------------

/-- One raw labor record (category-level labor hours). -/
structure LaborRow where
  country : Nat
  year : Nat
  occupation : Nat
  labor_hours : ℚ
deriving DecidableEq, Repr

/-- One row of the (possibly imputed) wage-ratio table. -/
structure RatioRow where
  country : Nat
  occupation : Nat
  ratio : Option ℚ
deriving DecidableEq, Repr

/-- The left merge of the wage ratio followed by
`df["wage_ratio"].fillna(1.0)`: a category with no ratio row at all, or a
NaN ratio, gets skill weight 1.0. -/
def skill_weight (ratios : List RatioRow) (c o : Nat) : ℚ :=
  match ratios.find? (fun t => t.country == c && t.occupation == o) with
  | some t => t.ratio.getD 1
  | none => 1

/-- `eff_labor = labor_hours * wage_ratio`, summed per country-year over
all categories present. -/
def calculate_effective_labor (labor : List LaborRow) (ratios : List RatioRow)
    (c y : Nat) : ℚ :=
  ((labor.filter (fun r => r.country == c && r.year == y)).map
    (fun r => r.labor_hours * skill_weight ratios r.country r.occupation)).sum

/-- C9: a category absent from the wage-ratio table entirely gets the
default skill weight 1.0, and the effective volume of an entity-period is
the sum of raw_volume x skill_weight over all its categories, including
the category that lacked wage data. -/
theorem claim_c9 (ratios : List RatioRow) (c y o1 o2 : Nat) (h1 h2 w : ℚ)
    (habs : ∀ t ∈ ratios, ¬(t.country = c ∧ t.occupation = o2))
    (hlook : ratios.find? (fun t => t.country == c && t.occupation == o1)
      = some ⟨c, o1, some w⟩) :
    skill_weight ratios c o2 = 1 ∧
    calculate_effective_labor [⟨c, y, o1, h1⟩, ⟨c, y, o2, h2⟩] ratios c y
      = h1 * w + h2 * 1 := by
  have hw2 : skill_weight ratios c o2 = 1 := by
    unfold skill_weight
    rw [List.find?_eq_none.mpr]
    intro t ht
    have := habs t ht
    simp only [Bool.and_eq_true, beq_iff_eq]
    intro hc
    exact this ⟨hc.1, hc.2⟩
  refine ⟨hw2, ?_⟩
  unfold calculate_effective_labor
  have hw1 : skill_weight ratios c o1 = w := by
    unfold skill_weight
    rw [hlook]
    rfl
  simp [List.filter_cons, hw1, hw2]

/-- Witness for C9: category 1 has ratio 5, category 2 is absent. -/
theorem claim_c9_witness :
    skill_weight [⟨0, 1, some 5⟩] 0 2 = 1 ∧
    calculate_effective_labor [⟨0, 0, 1, 2⟩, ⟨0, 0, 2, 3⟩] [⟨0, 1, some 5⟩] 0 0
      = 2 * 5 + 3 * 1 :=
  claim_c9 [⟨0, 1, some 5⟩] 0 0 1 2 2 3 5 (by decide) (by decide)

end Chip
